import Mathlib

/-!
Verification development for the flatmap-SVG reconstruction pipeline of
`cmlibs.exporter` (file `src/cmlibs/exporter/flatmapsvg.py`).

Numbers handled by the pipeline are Python floats that enter the tolerance
computation through their default decimal string representation
(`Decimal(f"{n}")`).  Following the design note of the specification that the
significant-figure count is a property of the decimal string, a number is
modelled here as the decimal value carried by that string: a mantissa and a
power-of-ten exponent, with its exact rational value used for all arithmetic.
-/

/-- Fuel-driven decimal digit counter; `numDigitsAux f m` is the number of
decimal digits of `m` provided `m ≤ f`. -/
def numDigitsAux : Nat → Nat → Nat
  | 0, _ => 0
  | f + 1, m => if m < 10 then 1 else numDigitsAux f (m / 10) + 1

/-- Number of decimal digits of a positive natural number. -/
def numDigits (m : Nat) : Nat :=
  numDigitsAux m m

/-- Fuel-driven removal of trailing decimal zeros. -/
def stripZerosAux : Nat → Nat → Nat
  | 0, m => m
  | f + 1, m => if m ≠ 0 ∧ m % 10 = 0 then stripZerosAux f (m / 10) else m

/-- Remove the trailing decimal zeros of a natural number
(`Decimal.normalize` on the mantissa). -/
def stripZeros (m : Nat) : Nat :=
  stripZerosAux m m

/-- Least `k` with `m ≤ 10 ^ k`, i.e. the ceiling of `log10 m` for `m ≥ 1`. -/
def clogNat (m : Nat) : Nat :=
  if m ≤ 1 then 0 else numDigits (m - 1)

/-- Integer power of ten as a rational number. -/
def pow10 (z : Int) : ℚ :=
  (10 : ℚ) ^ z

/-- Python `int(·)` on a rational value: truncation toward zero. -/
def truncQ (q : ℚ) : Int :=
  if 0 ≤ q then ⌊q⌋ else -⌊-q⌋

/-- A number as carried by its default decimal string representation:
value `m * 10 ^ e`. -/
structure Dec where
  m : Int
  e : Int
  deriving DecidableEq, Repr

/-- The exact rational value of a decimal number. -/
def Dec.val (d : Dec) : ℚ :=
  (d.m : ℚ) * pow10 d.e

/-- `_count_significant_figs`: the length of
`Decimal(num_str).normalize().as_tuple().digits`, i.e. the number of digits of
the mantissa after trailing zeros are removed (one digit for the value 0). -/
def count_significant_figs (d : Dec) : Nat :=
  if d.m = 0 then 1 else numDigits (stripZeros d.m.natAbs)

/-- `math.ceil(math.log10 |value|)` of a decimal number with nonzero
mantissa: `e + ⌈log10 |m|⌉`. -/
def ceilLog10 (d : Dec) : Int :=
  d.e + clogNat d.m.natAbs

/-- The magnitude contribution of one number inside `_calculate_tolerance`:
`math.ceil(math.log10(abs_n if abs_n > 1e-08 else 1.0))`. -/
def magnitudeOf (d : Dec) : Int :=
  if pow10 (-8) < |d.val| then ceilLog10 d else 0

/-- `_calculate_tolerance`: minimum significant-figure count (floored at 14)
minus maximum magnitude minus 2 gives the tolerance exponent; the result is
`10 ** (-tolerance_power if tolerance_power > 0 else -8)`.  An empty batch
yields `10 ** -math.inf == 0.0`, modelled as `0`. -/
def calculate_tolerance (numbers : List Dec) : ℚ :=
  match numbers with
  | [] => 0
  | n :: rest =>
      let minSigFigs : Int :=
        rest.foldl (fun acc d => min acc (count_significant_figs d)) (count_significant_figs n)
      let maxSigDigit : Int :=
        rest.foldl (fun acc d => max acc (magnitudeOf d)) (magnitudeOf n)
      let flooredSigFigs : Int := max 14 minSigFigs
      let tolerancePower : Int := flooredSigFigs - maxSigDigit - 2
      if 0 < tolerancePower then pow10 (-tolerancePower) else pow10 (-8)

/-- `_create_key`: quantize a point by multiplying each coordinate by the key
tolerance and truncating to an integer. -/
def create_key (pt : List ℚ) (tolerance : ℚ) : List Int :=
  pt.map (fun p => truncQ (p * tolerance))

/-! ### Curve Builder (`_calculate_bezier_curve`) -/

/-- `cmlibs.maths.vectorops.add`: componentwise vector addition. -/
def vec_add (u v : List ℚ) : List ℚ :=
  List.zipWith (· + ·) u v

/-- `cmlibs.maths.vectorops.sub`: componentwise vector subtraction. -/
def vec_sub (u v : List ℚ) : List ℚ :=
  List.zipWith (· - ·) u v

/-- `cmlibs.maths.vectorops.div`: divide each component by a scalar. -/
def vec_div (u : List ℚ) (c : ℚ) : List ℚ :=
  u.map (· / c)

/-- `_calculate_bezier_curve`: from two raw endpoints (position, tangent) take
the first two components of each and return the four cubic Bezier control
points `(b0, b1, b2, b3)`. -/
def calculate_bezier_curve (pt1 pt2 : List ℚ × List ℚ) :
    List ℚ × List ℚ × List ℚ × List ℚ :=
  let h0 := pt1.1.take 2
  let v0 := pt1.2.take 2
  let h1 := pt2.1.take 2
  let v1 := pt2.2.take 2
  (h0, vec_add h0 (vec_div v0 3), vec_sub h1 (vec_div v1 3), h1)

/-! ### Empty-input behaviour of `_analyze_elements` and its caller

`_analyze_elements` normally returns the triple
`(grouped_path_points, branching_points, svg_id_group_map)`, but returns the
empty list `[]` when the 3-D mesh is absent or has size zero.  Its caller
`export_flatmapsvg_from_scene` unconditionally performs the unpacking
assignment `path_points, branching_points, svg_id_group_map = _analyze_elements(...)`,
which in Python raises `ValueError` unless the value is an iterable of exactly
three items. -/

/-- The value returned by `_analyze_elements`: either the empty list or a
triple of results. -/
inductive AnalyzeValue (α β γ : Type) where
  | emptyList : AnalyzeValue α β γ
  | triple : α → β → γ → AnalyzeValue α β γ
  deriving DecidableEq

/-- Python tuple unpacking `a, b, c = v`: succeeds only on a three-item
value, raises `ValueError` on the empty list. -/
def unpack3 {α β γ : Type} : AnalyzeValue α β γ → Except String (α × β × γ)
  | AnalyzeValue.emptyList =>
      Except.error ("ValueError: not enough values to unpack (expected 3, got 0)")
  | AnalyzeValue.triple a b c => Except.ok (a, b, c)

/-- The inputs of `_analyze_elements` that decide between its early returns
and its main branch: whether `findMeshByDimension(3)` produced a mesh, the
mesh size, and the data the main branch would assemble from the elements
(grouped path points, branching points, svg-id map) — the main branch is
driven by the external Zinc field evaluations. -/
structure AnalyzeInput where
  meshPresent : Bool
  meshSize : Nat
  groupedPathPoints : List (String × List ((List ℚ × List ℚ) × (List ℚ × List ℚ)))
  branchingPoints : List (List ℚ)
  svgIdGroupMap : List (String × String)

/-- `_analyze_elements`: early `return []` when the mesh is absent or empty,
otherwise the triple of its results. -/
def analyze_elements (inp : AnalyzeInput) :
    AnalyzeValue (List (String × List ((List ℚ × List ℚ) × (List ℚ × List ℚ))))
      (List (List ℚ)) (List (String × String)) :=
  if inp.meshPresent = false then AnalyzeValue.emptyList
  else if inp.meshSize = 0 then AnalyzeValue.emptyList
  else AnalyzeValue.triple inp.groupedPathPoints inp.branchingPoints inp.svgIdGroupMap

/-- The first step of `export_flatmapsvg_from_scene`: unpack the result of
`_analyze_elements` into `path_points, branching_points, svg_id_group_map`.
Every later step of the export runs only if this unpacking succeeds. -/
def export_flatmapsvg_first_step (inp : AnalyzeInput) :
    Except String
      (List (String × List ((List ℚ × List ℚ) × (List ℚ × List ℚ))) ×
        List (List ℚ) × List (String × String)) :=
  unpack3 (analyze_elements inp)

/-! ### Segment Stitcher (`UnionFind`, `_connected_segments`)

Curves are cubic Bezier curves with 2-D control points; each coordinate is a
decimal number (`Dec`).  Dictionaries are modelled as association lists:
lookup returns the first match, and the two insertion disciplines used by the
source (`begin_hash[key] = index`, which overwrites, and
`begin_hash[key] = begin_hash.get(key, index)`, which keeps the first entry)
are modelled by separate insert functions. -/

/-- A 2-D point with decimal coordinates. -/
def Point2 : Type := Dec × Dec

instance : DecidableEq Point2 := by
  unfold Point2
  infer_instance

instance : Inhabited Point2 :=
  ⟨(⟨0, 0⟩, ⟨0, 0⟩)⟩

/-- A cubic Bezier curve `(b0, b1, b2, b3)` with 2-D control points. -/
structure Curve where
  b0 : Point2
  b1 : Point2
  b2 : Point2
  b3 : Point2
  deriving DecidableEq, Inhabited

/-- The quantization key of a 2-D point under a key tolerance. -/
def keyOfPt (tol : ℚ) (p : Point2) : List Int :=
  create_key [p.1.val, p.2.val] tol

/-- The numbers gathered by `_connected_segments` from one curve:
`c[i][j]` for `i in [0, 3]`, `j in [0, 1]`. -/
def curveNums (c : Curve) : List Dec :=
  [c.b0.1, c.b0.2, c.b3.1, c.b3.2]

/-- All numbers gathered by `_connected_segments` from a curve list. -/
def curveNumbers : List Curve → List Dec
  | [] => []
  | c :: r => curveNums c ++ curveNumbers r

/-- First-match lookup in an association list (Python `dict` access). -/
def lookupA {α β : Type} [DecidableEq α] : List (α × β) → α → Option β
  | [], _ => none
  | (k', v') :: t, k => if k' = k then some v' else lookupA t k

/-- Overwriting insert (`d[key] = value`). -/
def hashInsert {α β : Type} [DecidableEq α] : List (α × β) → α → β → List (α × β)
  | [], k, v => [(k, v)]
  | (k', v') :: t, k, v =>
      if k' = k then (k, v) :: t else (k', v') :: hashInsert t k v

/-- The stitcher's start-key map: `begin_hash[key] = index` for each curve in
order; a repeated start key keeps only the later index. -/
def buildBeginHash (keys : List (List Int)) : List (List Int × Nat) :=
  keys.enum.foldl (fun h p => hashInsert h p.2 p.1) []

/-- `UnionFind.find` without path compression (which does not change the
returned root); fuel-driven, called with fuel `parent.length`. -/
def ufFind (parent : List Int) : Nat → Nat → Nat
  | 0, i => i
  | f + 1, i =>
      let p := parent.getD i (-1)
      if p = -1 then i else ufFind parent f p.toNat

/-- `UnionFind.union i j`: attach `i`'s root under `j`'s root. -/
def ufUnion (parent : List Int) (i j : Nat) : List Int :=
  let ri := ufFind parent parent.length i
  let rj := ufFind parent parent.length j
  if ri ≠ rj then parent.set ri (Int.ofNat rj) else parent

/-- The stitcher's union pass: for each curve index, if its end key is some
curve's start key, union the start-curve's index with the current index.
`keys3` is the list of end keys in curve order. -/
def applyUnions (keys3 : List (List Int)) (hash : List (List Int × Nat)) (n : Nat) :
    List Int :=
  keys3.enum.foldl
    (fun par p =>
      match lookupA hash p.2 with
      | some s => ufUnion par s p.1
      | none => par)
    (List.replicate n (-1))

/-- Append a member to the set of its root, first occurrence of a root
creating a new entry at the end (Python `dict` insertion order). -/
def addToSets (sets : List (Nat × List Nat)) (r i : Nat) : List (Nat × List Nat) :=
  match sets with
  | [] => [(r, [i])]
  | (r', l) :: t => if r' = r then (r', l ++ [i]) :: t else (r', l) :: addToSets t r i

/-- Partition the indices `0, …, n-1` by union-find root. -/
def buildSets (parent : List Int) (n : Nat) : List (Nat × List Nat) :=
  (List.range n).foldl (fun sets i => addToSets sets (ufFind parent parent.length i) i) []

/-- The chain-reconstruction `while` loop of `_connected_segments` at the
level of curve indices: follow "my end key is another curve's start key"
links, appending curve indices; the loop exits when the key has no entry, or
breaks when the newly computed key equals the immediately preceding one
(`old_key == key`).  The key of `curve[s][3]` is `keys3[s]`, so the loop is a
function of the precomputed end keys.  `none` means the fuel ran out, i.e.
the loop did not terminate within `fuel` iterations. -/
def buildSegAux (keys3 : List (List Int)) (hash : List (List Int × Nat)) :
    Nat → List Int → List Nat → Option (List Nat)
  | 0, _, _ => none
  | f + 1, key, seg =>
      match lookupA hash key with
      | none => some seg
      | some s =>
          match keys3.get? s with
          | none => none
          | some newKey =>
              let seg' := seg ++ [s]
              if key = newKey then some seg' else buildSegAux keys3 hash f newKey seg'

/-- The traversal for one component, starting from its root curve `s`. -/
def buildSeg (keys3 : List (List Int)) (hash : List (List Int × Nat))
    (fuel s : Nat) : Option (List Nat) :=
  match keys3.get? s with
  | none => none
  | some k0 => buildSegAux keys3 hash fuel k0 [s]

/-- The `for s in sets` loop of `_connected_segments`: one chain per
component, in component order; `none` if any chain reconstruction runs out of
fuel. -/
def segmentsLoop (keys3 : List (List Int)) (hash : List (List Int × Nat))
    (fuel : Nat) : List (Nat × List Nat) → Option (List (List Nat))
  | [] => some []
  | rs :: t =>
      match buildSeg keys3 hash fuel rs.1, segmentsLoop keys3 hash fuel t with
      | some seg, some rest => some (seg :: rest)
      | _, _ => none

/-- The index-level core of `_connected_segments`, a function of the curves'
start keys `keys0` and end keys `keys3`: build the start-key map, union
curves whose end key matches a start key, partition into components, and
reconstruct one chain (a list of curve indices) per component.  A terminating
run of the source's `while` loop performs at most `keys0.length + 1`
iterations (the visited keys are pairwise distinct except possibly the last,
which the `old_key == key` guard stops), so fuel `keys0.length + 2` is exact:
`none` is returned iff some component's loop runs forever. -/
def stitchCore (keys0 keys3 : List (List Int)) : Option (List (List Nat)) :=
  let n := keys0.length
  let hash := buildBeginHash keys0
  let parent := applyUnions keys3 hash n
  let sets := buildSets parent n
  segmentsLoop keys3 hash (n + 2) sets

/-- The key tolerance used by `_connected_segments`:
`1 / _calculate_tolerance(numbers)`. -/
def stitchKeyTol (curves : List Curve) : ℚ :=
  1 / calculate_tolerance (curveNumbers curves)

/-- The start keys of a curve list under its stitching tolerance. -/
def keys0Of (curves : List Curve) : List (List Int) :=
  curves.map (fun c => keyOfPt (stitchKeyTol curves) c.b0)

/-- The end keys of a curve list under its stitching tolerance. -/
def keys3Of (curves : List Curve) : List (List Int) :=
  curves.map (fun c => keyOfPt (stitchKeyTol curves) c.b3)

/-- `_connected_segments`: compute the group tolerance and the curves' start
and end keys, run the index-level core, and read the chains back as curve
lists. -/
def connected_segments (curves : List Curve) : Option (List (List Curve)) :=
  (stitchCore (keys0Of curves) (keys3Of curves)).map
    (fun segs => segs.map (fun seg => seg.map (fun i => curves.getD i default)))

/-- The per-chain endpoint pairs (first curve's start key, last curve's end
key), as an unordered collection. -/
def chainPairs (curves : List Curve) : Option (Multiset (List Int × List Int)) :=
  let k0 := keys0Of curves
  let k3 := keys3Of curves
  (stitchCore k0 k3).map
    (fun segs =>
      ((segs.map (fun seg =>
          (k0.getD (seg.headD 0) [], k3.getD (seg.getLastD 0) []))) :
        Multiset (List Int × List Int)))

/-! ### Branch Locator tail of `_determine_network` (lines 418-432)

The `network_points` dictionary: each group of `end_point_data` is
initialised with its two chain end points at offsets `0.0` and `1.0`; when
the scan recorded a best candidate parent for the group, the entry
`(int_length / branch_length, values[3][:2])` is appended to the parent's
list, where the lengths are Euclidean magnitudes of differences of the
3-component `vagus coordinates` values and `values[3]` is the Cartesian
location of the nearest point found on the parent. -/

/-- `cmlibs.maths.vectorops.magnitude`: the Euclidean norm. -/
noncomputable def magnitude (v : List ℚ) : ℝ :=
  Real.sqrt ((v.map (fun x => ((x : ℝ)) ^ 2)).sum)

/-- The best branch candidate recorded in `min_value[group_name]`:
`[diff, group-name-or-None, material_values, values]`. -/
structure BranchCand where
  diff : ℚ
  parent : Option String
  materialLoc : List ℚ
  cartLoc : List ℚ

/-- `network_points[g] = network_points.get(g, default)`: insert the default
if the key is absent, otherwise leave the dictionary unchanged. -/
def getOrInit (np : List (String × List (ℝ × List ℚ))) (g : String)
    (dflt : List (ℝ × List ℚ)) : List (String × List (ℝ × List ℚ)) :=
  match lookupA np g with
  | some _ => np
  | none => np ++ [(g, dflt)]

/-- `network_points[g].append(x)`. -/
def appendEntry (np : List (String × List (ℝ × List ℚ))) (g : String)
    (x : ℝ × List ℚ) : List (String × List (ℝ × List ℚ)) :=
  np.map (fun e => if e.1 = g then (e.1, e.2 ++ [x]) else e)

/-- `[(0.0, end_points[0][0]), (1.0, end_points[0][1])]`. -/
def initialPoints (eps : List (List ℚ × List ℚ)) : List (ℝ × List ℚ) :=
  [((0 : ℝ), (eps.headD ([], [])).1), ((1 : ℝ), (eps.headD ([], [])).2)]

/-- One iteration of the `network_points` loop for group `g`. -/
noncomputable def networkPointsStep (epd : List (String × List (List ℚ × List ℚ)))
    (minValue : List (String × BranchCand))
    (startValue endValue : List (String × List ℚ))
    (np : List (String × List (ℝ × List ℚ))) (g : String × List (List ℚ × List ℚ)) :
    List (String × List (ℝ × List ℚ)) :=
  let np1 := getOrInit np g.1 (initialPoints g.2)
  match lookupA minValue g.1 with
  | none => np1
  | some cand =>
      match cand.parent with
      | none => np1
      | some intBranch =>
          let branchStart := (lookupA startValue intBranch).getD []
          let branchEnd := (lookupA endValue intBranch).getD []
          let branchLength := magnitude (vec_sub branchEnd branchStart)
          let intLength := magnitude (vec_sub cand.materialLoc branchStart)
          let np2 := getOrInit np1 intBranch (initialPoints ((lookupA epd intBranch).getD []))
          appendEntry np2 intBranch (intLength / branchLength, cand.cartLoc.take 2)

/-- The `network_points` loop of `_determine_network` over all groups of
`end_point_data`. -/
noncomputable def buildNetworkPoints (epd : List (String × List (List ℚ × List ℚ)))
    (minValue : List (String × BranchCand))
    (startValue endValue : List (String × List ℚ)) :
    List (String × List (ℝ × List ℚ)) :=
  epd.foldl (networkPointsStep epd minValue startValue endValue) []

/-! ### Network Assembler tail of `_determine_network` (lines 434-474)

This stage is a pure function of the `network_points` association list:
flatten all points, compute one global key tolerance, deduplicate points by
key (first occurrence wins), and emit, per group, the ordered list of
canonical point labels.  Offsets are modelled as rationals. -/

/-- `begin_hash[key] = begin_hash.get(key, index)`: keep the first index. -/
def hashKeepInsert (h : List (List Int × Nat)) (k : List Int) (v : Nat) :
    List (List Int × Nat) :=
  if (lookupA h k).isSome then h else h ++ [(k, v)]

/-- The assembler's first-occurrence key map. -/
def buildFirstHash (keys : List (List Int)) : List (List Int × Nat) :=
  keys.enum.foldl (fun h p => hashKeepInsert h p.2 p.1) []

/-- The flattened point list (each point is the list of its coordinates). -/
def asmPoints : List (String × List (ℚ × List Dec)) → List (List Dec)
  | [] => []
  | g :: t => g.2.map Prod.snd ++ asmPoints t

/-- `numbers.extend(v[1])` over all points. -/
def asmNumbers : List (List Dec) → List Dec
  | [] => []
  | p :: t => p ++ asmNumbers t

/-- The assembler's global key tolerance `1 / _calculate_tolerance(numbers)`. -/
def asmKeyTol (np : List (String × List (ℚ × List Dec))) : ℚ :=
  1 / calculate_tolerance (asmNumbers (asmPoints np))

/-- The key of one point (a coordinate list) under a key tolerance. -/
def pointKey (tol : ℚ) (pt : List Dec) : List Int :=
  create_key (pt.map Dec.val) tol

/-- The keys of all points of the assembler input. -/
def asmKeys (np : List (String × List (ℚ × List Dec))) : List (List Int) :=
  (asmPoints np).map (pointKey (asmKeyTol np))

/-- The assembler's `begin_hash`. -/
def asmHash (np : List (String × List (ℚ × List Dec))) : List (List Int × Nat) :=
  buildFirstHash (asmKeys np)

/-- The `index_map` / `network_points_2` loop: for each point in order, its
hash index; the first point of each hash index is appended to the
deduplicated point list and `index_map[index]` records its position. -/
def buildIndexMapPts (pts : List (List Dec)) (keys : List (List Int))
    (hash : List (List Int × Nat)) : List (Nat × Nat) × List (List Dec) :=
  (pts.zip keys).foldl
    (fun st pk =>
      let index := (lookupA hash pk.2).getD 0
      match lookupA st.1 index with
      | some _ => st
      | none => (st.1 ++ [(index, st.2.length)], st.2 ++ [pk.1]))
    ([], [])

/-- `index_map` and `network_points_2` for the assembler input. -/
def asmIndexMapPts (np : List (String × List (ℚ × List Dec))) :
    List (Nat × Nat) × List (List Dec) :=
  buildIndexMapPts (asmPoints np) (asmKeys np) (asmHash np)

/-- `size_of_digits = len(f'{len(final_network_points)}')`. -/
def asmSizeDigits (np : List (String × List (ℚ × List Dec))) : Nat :=
  (toString (asmIndexMapPts np).2.length).length

/-- Python `str.rjust(width, '0')`. -/
def rjustZeros (s : String) (w : Nat) : String :=
  String.mk (List.replicate (w - s.length) '0') ++ s

/-- `_group_number`: one-based index, zero-padded. -/
def group_number (index size : Nat) : String :=
  rjustZeros (toString (index + 1)) size

/-- `_define_point_title`. -/
def define_point_title (index size : Nat) : String :=
  "point_" ++ group_number index size

/-- The canonical label of a point key:
`_define_point_title(index_map[begin_hash[key]], size_of_digits)`. -/
def labelForKey (hash : List (List Int × Nat)) (imap : List (Nat × Nat))
    (size : Nat) (k : List Int) : String :=
  define_point_title ((lookupA imap ((lookupA hash k).getD 0)).getD 0) size

/-- The canonical label of one point of the assembler input. -/
def asmLabelOfPoint (np : List (String × List (ℚ × List Dec))) (pt : List Dec) :
    String :=
  labelForKey (asmHash np) (asmIndexMapPts np).1 (asmSizeDigits np)
    (pointKey (asmKeyTol np) pt)

/-- Stable insertion into a list sorted ascending by offset: the new element
goes after existing elements with an equal offset (Python `sorted` is
stable). -/
def insertByOffset (x : ℚ × List Dec) : List (ℚ × List Dec) → List (ℚ × List Dec)
  | [] => [x]
  | y :: ys => if y.1 ≤ x.1 then y :: insertByOffset x ys else x :: y :: ys

/-- `sorted(values, key=lambda tup: tup[0])` as a stable insertion sort. -/
def sortByOffset (l : List (ℚ × List Dec)) : List (ℚ × List Dec) :=
  l.foldl (fun acc x => insertByOffset x acc) []

/-- `if mapped_name not in final_network[group_name]: append` — the label is
skipped when it already occurs anywhere in the list built so far. -/
def appendUnique (acc : List String) (s : String) : List String :=
  if s ∈ acc then acc else acc ++ [s]

/-- The label list built for one group by `_determine_network`. -/
def asmGroupEdge (np : List (String × List (ℚ × List Dec)))
    (values : List (ℚ × List Dec)) : List String :=
  (sortByOffset values).foldl (fun acc v => appendUnique acc (asmLabelOfPoint np v.2)) []

/-- The final stage of `_determine_network`: the network plan (per-group
label lists) and the deduplicated point list. -/
def determine_network_assembly (np : List (String × List (ℚ × List Dec))) :
    List (String × List String) × List (List Dec) :=
  (np.map (fun g => (g.1, asmGroupEdge np g.2)), (asmIndexMapPts np).2)

/-- The skip-only-if-adjacent variant of the label append, following the
claim's words: a label is skipped only when it equals the immediately
preceding appended label. -/
def appendSkipAdjacent (acc : List String) (s : String) : List String :=
  if acc.getLast? = some s then acc else acc ++ [s]

/-- The label list one group would get if labels were skipped only when
equal to the immediately preceding label (the claim's description). -/
def asmGroupEdgeAdjacent (np : List (String × List (ℚ × List Dec)))
    (values : List (ℚ × List Dec)) : List String :=
  (sortByOffset values).foldl
    (fun acc v => appendSkipAdjacent acc (asmLabelOfPoint np v.2)) []

/-- Keep the first occurrence of each element, dropping later duplicates. -/
def dedupFirst {α : Type} [DecidableEq α] : List α → List α
  | [] => []
  | x :: xs => x :: dedupFirst (xs.filter (fun y => y ≠ x))
  termination_by l => l.length
  decreasing_by
    simp only [List.length_cons]
    exact Nat.lt_succ_of_le (List.length_filter_le _ _)


/-! ### The tolerance formula as worded by the specification

For comparison with `calculate_tolerance`: identical except that the claim
asserts the result is `10 ^ 8` (not `10 ^ (-8)`) when the exponent is not
positive. -/

/-- The tolerance as described by the claim: `10^(−exponent)` if
`exponent > 0`, and `10^8` otherwise. -/
def claimedTolerance (numbers : List Dec) : ℚ :=
  match numbers with
  | [] => 0
  | n :: rest =>
      let minSigFigs : Int :=
        rest.foldl (fun acc d => min acc (count_significant_figs d)) (count_significant_figs n)
      let maxSigDigit : Int :=
        rest.foldl (fun acc d => max acc (magnitudeOf d)) (magnitudeOf n)
      let flooredSigFigs : Int := max 14 minSigFigs
      let tolerancePower : Int := flooredSigFigs - maxSigDigit - 2
      if 0 < tolerancePower then pow10 (-tolerancePower) else pow10 8

/-! ### Concrete inputs used by counterexamples, witnesses and failing runs -/

/-- A curve from `(1, 1)` to `(2, 1)` (control points at the endpoints). -/
def cycA : Curve :=
  ⟨(⟨1, 0⟩, ⟨1, 0⟩), (⟨1, 0⟩, ⟨1, 0⟩), (⟨2, 0⟩, ⟨1, 0⟩), (⟨2, 0⟩, ⟨1, 0⟩)⟩

/-- A curve from `(2, 1)` back to `(1, 1)`: together with `cycA` a cycle of
length two. -/
def cycB : Curve :=
  ⟨(⟨2, 0⟩, ⟨1, 0⟩), (⟨2, 0⟩, ⟨1, 0⟩), (⟨1, 0⟩, ⟨1, 0⟩), (⟨1, 0⟩, ⟨1, 0⟩)⟩

/-- A curve from `(1, 1)` to `(2, 1)`. -/
def shA : Curve :=
  ⟨(⟨1, 0⟩, ⟨1, 0⟩), (⟨1, 0⟩, ⟨1, 0⟩), (⟨2, 0⟩, ⟨1, 0⟩), (⟨2, 0⟩, ⟨1, 0⟩)⟩

/-- A curve from `(1, 1)` to `(3, 1)`: it shares its start point with `shA`. -/
def shB : Curve :=
  ⟨(⟨1, 0⟩, ⟨1, 0⟩), (⟨1, 0⟩, ⟨1, 0⟩), (⟨3, 0⟩, ⟨1, 0⟩), (⟨3, 0⟩, ⟨1, 0⟩)⟩

/-- A curve from `(4, 1)` to `(1, 1)`: its end matches the shared start point
of `shA` and `shB`. -/
def shC : Curve :=
  ⟨(⟨4, 0⟩, ⟨1, 0⟩), (⟨4, 0⟩, ⟨1, 0⟩), (⟨1, 0⟩, ⟨1, 0⟩), (⟨1, 0⟩, ⟨1, 0⟩)⟩

/-- A curve from `(1, 1)` to `(2, 1)`, unlinked to `wB`. -/
def wA : Curve :=
  ⟨(⟨1, 0⟩, ⟨1, 0⟩), (⟨1, 0⟩, ⟨1, 0⟩), (⟨2, 0⟩, ⟨1, 0⟩), (⟨2, 0⟩, ⟨1, 0⟩)⟩

/-- A curve from `(3, 1)` to `(4, 1)`, unlinked to `wA`. -/
def wB : Curve :=
  ⟨(⟨3, 0⟩, ⟨1, 0⟩), (⟨3, 0⟩, ⟨1, 0⟩), (⟨4, 0⟩, ⟨1, 0⟩), (⟨4, 0⟩, ⟨1, 0⟩)⟩

/-- The point `(0, 0)`. -/
def ptP : List Dec := [⟨0, 0⟩, ⟨0, 0⟩]

/-- The point `(1, 0)`. -/
def ptQ : List Dec := [⟨1, 0⟩, ⟨0, 0⟩]

/-- An assembler input with one group whose path starts and ends at the same
point `ptP`, with `ptQ` in between. -/
def npX : List (String × List (ℚ × List Dec)) :=
  [("a", [(0, ptP), (1, ptQ), (2, ptP)])]

/-- A one-group, one-point assembler input. -/
def npW : List (String × List (ℚ × List Dec)) :=
  [("g", [(0, ptP)])]

/-- Branch-locator inputs: the branch group "b" (start `(0,0)`), the parent
group "t". -/
def epdX : List (String × List (List ℚ × List ℚ)) :=
  [("b", [([0, 0], [5, 5])]), ("t", [([10, 0], [20, 0])])]

/-- The recorded best candidate for group "b": parent "t", the nearest
location on "t" at Cartesian coordinates `(1e-13, 0, 0)` — within tolerance
of, but different from, the branch's start point `(0, 0)`. -/
def minValueX : List (String × BranchCand) :=
  [("b", ⟨1 / 10 ^ 13, some "t", [3, 0, 0], [1 / 10 ^ 13, 0, 0]⟩)]

/-- Material coordinates of the parent group's start. -/
def startValueX : List (String × List ℚ) := [("t", [0, 0, 0])]

/-- Material coordinates of the parent group's end. -/
def endValueX : List (String × List ℚ) := [("t", [3, 4, 0])]

/-- An `_analyze_elements` input whose 3-D mesh is present but has size 0. -/
def inpEmptyMesh : AnalyzeInput := ⟨true, 0, [], [], []⟩

/-! ## Helper lemmas -/

theorem foldl_min_map {α : Type} (l : List α) (f : α → Int) (a : Int) :
    l.foldl (fun acc d => min acc (f d)) a = (l.map f).foldl min a := by
  induction l generalizing a with
  | nil => rfl
  | cons b t ih => simp [List.foldl_cons, ih]

theorem foldl_max_map {α : Type} (l : List α) (f : α → Int) (a : Int) :
    l.foldl (fun acc d => max acc (f d)) a = (l.map f).foldl max a := by
  induction l generalizing a with
  | nil => rfl
  | cons b t ih => simp [List.foldl_cons, ih]

theorem foldl_min_mem (l : List Int) : ∀ a, l.foldl min a ∈ a :: l := by
  induction l with
  | nil => intro a; simp
  | cons b t ih =>
      intro a
      have h := ih (min a b)
      rcases List.mem_cons.1 h with h1 | h1
      · rcases min_choice a b with h2 | h2 <;> rw [List.foldl_cons, h1, h2] <;> simp
      · simp [List.foldl_cons, List.mem_cons.2 (Or.inr (List.mem_cons.2 (Or.inr h1)))]

theorem foldl_min_le (l : List Int) : ∀ a, ∀ x ∈ a :: l, l.foldl min a ≤ x := by
  induction l with
  | nil => intro a x hx; simp at hx; simp [hx]
  | cons b t ih =>
      intro a x hx
      rcases List.mem_cons.1 hx with h1 | h1
      · subst h1
        have := ih (min x b) (min x b) (List.mem_cons_self _ _)
        calc (b :: t).foldl min x = t.foldl min (min x b) := by rw [List.foldl_cons]
          _ ≤ min x b := this
          _ ≤ x := min_le_left _ _
      · rcases List.mem_cons.1 h1 with h2 | h2
        · subst h2
          have := ih (min a x) (min a x) (List.mem_cons_self _ _)
          calc (x :: t).foldl min a = t.foldl min (min a x) := by rw [List.foldl_cons]
            _ ≤ min a x := this
            _ ≤ x := min_le_right _ _
        · exact le_of_eq_of_le (by rw [List.foldl_cons])
            (ih (min a b) x (List.mem_cons.2 (Or.inr h2)))

theorem foldl_max_mem (l : List Int) : ∀ a, l.foldl max a ∈ a :: l := by
  induction l with
  | nil => intro a; simp
  | cons b t ih =>
      intro a
      have h := ih (max a b)
      rcases List.mem_cons.1 h with h1 | h1
      · rcases max_choice a b with h2 | h2 <;> rw [List.foldl_cons, h1, h2] <;> simp
      · simp [List.foldl_cons, List.mem_cons.2 (Or.inr (List.mem_cons.2 (Or.inr h1)))]

theorem foldl_max_ge (l : List Int) : ∀ a, ∀ x ∈ a :: l, x ≤ l.foldl max a := by
  induction l with
  | nil => intro a x hx; simp at hx; simp [hx]
  | cons b t ih =>
      intro a x hx
      rcases List.mem_cons.1 hx with h1 | h1
      · subst h1
        have := ih (max x b) (max x b) (List.mem_cons_self _ _)
        calc x ≤ max x b := le_max_left _ _
          _ ≤ t.foldl max (max x b) := this
          _ = (b :: t).foldl max x := by rw [List.foldl_cons]
      · rcases List.mem_cons.1 h1 with h2 | h2
        · subst h2
          have := ih (max a x) (max a x) (List.mem_cons_self _ _)
          calc x ≤ max a x := le_max_right _ _
            _ ≤ t.foldl max (max a x) := this
            _ = (x :: t).foldl max a := by rw [List.foldl_cons]
        · exact le_of_le_of_eq (ih (max a b) x (List.mem_cons.2 (Or.inr h2)))
            (by rw [List.foldl_cons])

theorem pow10_pos (z : Int) : 0 < pow10 z :=
  zpow_pos (by norm_num) z

theorem numDigitsAux_bounds (f : Nat) : ∀ m, 1 ≤ m → m ≤ f →
    10 ^ (numDigitsAux f m - 1) ≤ m ∧ m < 10 ^ numDigitsAux f m := by
  induction f with
  | zero => intro m h1 h2; omega
  | succ f ih =>
      intro m h1 h2
      by_cases h : m < 10
      · simp only [numDigitsAux, if_pos h]
        constructor
        · simpa using h1
        · simpa using h
      · push_neg at h
        have hd : m / 10 ≤ f := by omega
        have h1' : 1 ≤ m / 10 := by omega
        obtain ⟨ihl, ihr⟩ := ih (m / 10) h1' hd
        simp only [numDigitsAux, if_neg (by omega : ¬m < 10)]
        set d := numDigitsAux f (m / 10) with hdef
        have hdiv : 10 * (m / 10) ≤ m := by omega
        have hdiv2 : m < 10 * (m / 10) + 10 := by omega
        constructor
        · rcases Nat.eq_zero_or_pos d with h0 | hpos
          · simp [h0]; omega
          · have : d - 1 + 1 = d := by omega
            have hl : 10 ^ (d - 1 + 1) ≤ 10 * (m / 10) := by
              rw [pow_succ]
              calc 10 ^ (d - 1) * 10 ≤ m / 10 * 10 := by
                    exact Nat.mul_le_mul_right 10 ihl
                _ = 10 * (m / 10) := by ring
            have : 10 ^ d ≤ 10 * (m / 10) := by rwa [this] at hl
            simpa using le_trans this hdiv
        · have hr : 10 * (m / 10) + 10 ≤ 10 * 10 ^ d := by omega
          calc m < 10 * (m / 10) + 10 := hdiv2
            _ ≤ 10 * 10 ^ d := hr
            _ = 10 ^ (d + 1) := by ring

theorem numDigits_bounds (m : Nat) (h : 1 ≤ m) :
    10 ^ (numDigits m - 1) ≤ m ∧ m < 10 ^ numDigits m :=
  numDigitsAux_bounds m m h le_rfl

theorem clogNat_bounds (m : Nat) (h : 1 ≤ m) :
    (m : ℚ) ≤ 10 ^ clogNat m ∧ ((10 : ℚ) ^ clogNat m) / 10 < m := by
  rcases Nat.lt_or_ge m 2 with h2 | h2
  · have : m = 1 := by omega
    subst this
    norm_num [clogNat]
  · have h1 : 1 ≤ m - 1 := by omega
    obtain ⟨hl, hr⟩ := numDigits_bounds (m - 1) h1
    have hc : clogNat m = numDigits (m - 1) := by
      unfold clogNat
      rw [if_neg (by omega)]
    rw [hc]
    set d := numDigits (m - 1)
    have hd1 : 1 ≤ d := by
      by_contra hcon
      have : d = 0 := by omega
      rw [this] at hr
      simp at hr
      omega
    constructor
    · have hm : m ≤ 10 ^ d := by omega
      exact_mod_cast hm
    · have hpow : (10 : ℚ) ^ d / 10 = ((10 ^ (d - 1) : ℕ) : ℚ) := by
        have hd : d - 1 + 1 = d := by omega
        push_cast
        rw [← hd, pow_succ]
        field_simp
      rw [hpow]
      have hlt : (10 : ℕ) ^ (d - 1) < m := by omega
      exact_mod_cast hlt

theorem ceilLog10_spec (d : Dec) (h : d.m ≠ 0) :
    pow10 (ceilLog10 d) / 10 < |d.val| ∧ |d.val| ≤ pow10 (ceilLog10 d) := by
  have hM : 1 ≤ d.m.natAbs := by
    have := Int.natAbs_pos.2 h
    omega
  obtain ⟨hub, hlb⟩ := clogNat_bounds d.m.natAbs hM
  have habs : |d.val| = (d.m.natAbs : ℚ) * pow10 d.e := by
    rw [Dec.val, abs_mul, abs_of_pos (pow10_pos d.e)]
    congr 1
    rw [← Int.cast_abs, ← Int.natCast_natAbs, Int.cast_natCast]
  have hsplit : pow10 (ceilLog10 d) = pow10 d.e * (10 : ℚ) ^ clogNat d.m.natAbs := by
    rw [ceilLog10, pow10, pow10, zpow_add₀ (by norm_num : (10 : ℚ) ≠ 0), zpow_natCast]
  constructor
  · rw [habs, hsplit]
    calc pow10 d.e * (10 : ℚ) ^ clogNat d.m.natAbs / 10 =
          pow10 d.e * ((10 : ℚ) ^ clogNat d.m.natAbs / 10) := by ring
      _ < pow10 d.e * (d.m.natAbs : ℚ) := mul_lt_mul_of_pos_left hlb (pow10_pos d.e)
      _ = (d.m.natAbs : ℚ) * pow10 d.e := by ring
  · rw [habs, hsplit]
    calc (d.m.natAbs : ℚ) * pow10 d.e ≤ (10 : ℚ) ^ clogNat d.m.natAbs * pow10 d.e :=
          mul_le_mul_of_nonneg_right hub (le_of_lt (pow10_pos d.e))
      _ = pow10 d.e * (10 : ℚ) ^ clogNat d.m.natAbs := by ring

/-! ## Claim theorems -/

/-- C7: for raw endpoints with positions `h0`, `h1` and tangents `v0`, `v1`,
`_calculate_bezier_curve` returns `b0 = h0`, `b1 = h0 + v0/3`,
`b2 = h1 − v1/3`, `b3 = h1` (on the first two components). -/
theorem bezier_control_points (x0 y0 z0 u0 v0 w0 x1 y1 z1 u1 v1 w1 : ℚ) :
    calculate_bezier_curve ([x0, y0, z0], [u0, v0, w0]) ([x1, y1, z1], [u1, v1, w1]) =
      ([x0, y0], [x0 + u0 / 3, y0 + v0 / 3], [x1 - u1 / 3, y1 - v1 / 3], [x1, y1]) :=
  rfl

/-- C10: key equality of `_create_key` is truncation bucketing, not a distance
test: with scale 10 (bucket width `1/10`), the points `(0.09, 0)` and
`(0.11, 0)` differ by less than `1/10` in every coordinate yet get different
keys, while `(0.099, 0)` and `(−0.099, 0)` differ by nearly `2/10` in a
coordinate near zero yet get equal keys. -/
theorem create_key_bucketing :
    (|(9 : ℚ) / 100 - 11 / 100| < 1 / 10 ∧ |(0 : ℚ) - 0| < 1 / 10 ∧
      create_key [9 / 100, 0] 10 ≠ create_key [11 / 100, 0] 10) ∧
    (|(99 : ℚ) / 1000 - (-99) / 1000| > 3 / 2 * (1 / 10) ∧
      create_key [99 / 1000, 0] 10 = create_key [(-99) / 1000, 0] 10) := by
  refine ⟨⟨?_, by norm_num, ?_⟩, ?_, ?_⟩
  · rw [show (9 : ℚ) / 100 - 11 / 100 = -(1 / 50) by norm_num, abs_neg,
      abs_of_pos (by norm_num : (0 : ℚ) < 1 / 50)]
    norm_num
  · norm_num [create_key, truncQ]
  · rw [show (99 : ℚ) / 1000 - (-99) / 1000 = 99 / 500 by norm_num,
      abs_of_pos (by norm_num : (0 : ℚ) < 99 / 500)]
    norm_num
  · norm_num [create_key, truncQ]

/-- C8: `_calculate_tolerance` is total on non-empty batches and returns a
strictly positive (finite, since it is a rational) value; in particular the
all-zero batch and a single repeated value raise no division error. -/
theorem calculate_tolerance_pos (numbers : List Dec) (h : numbers ≠ []) :
    0 < calculate_tolerance numbers := by
  match numbers with
  | [] => exact absurd rfl h
  | n :: rest =>
      simp only [calculate_tolerance]
      split
      · exact pow10_pos _
      · exact pow10_pos _

/-- Witness for C8: positivity holds on the all-zero batch and on a batch of
one repeated value. -/
theorem calculate_tolerance_pos_witness :
    ([(⟨0, 0⟩ : Dec)] ≠ []) ∧ 0 < calculate_tolerance [⟨0, 0⟩] ∧
      ([(⟨5, -1⟩ : Dec), ⟨5, -1⟩] ≠ []) ∧ 0 < calculate_tolerance [⟨5, -1⟩, ⟨5, -1⟩] :=
  ⟨by simp, calculate_tolerance_pos _ (by simp), by simp,
    calculate_tolerance_pos _ (by simp)⟩

/-- C1 (code bug): when the 3-D mesh is absent or has size zero,
`_analyze_elements` returns the empty list, and the caller's three-name
unpacking in `export_flatmapsvg_from_scene` therefore raises `ValueError`
instead of completing with empty results. -/
theorem export_empty_mesh_raises (inp : AnalyzeInput) (h : inp.meshSize = 0) :
    analyze_elements inp = AnalyzeValue.emptyList ∧
      export_flatmapsvg_first_step inp =
        Except.error ("ValueError: not enough values to unpack (expected 3, got 0)") := by
  have ha : analyze_elements inp = AnalyzeValue.emptyList := by
    by_cases hb : inp.meshPresent = false
    · simp [analyze_elements, hb]
    · simp [analyze_elements, hb, h]
  exact ⟨ha, by rw [export_flatmapsvg_first_step, ha]; rfl⟩

/-- Witness for C1: a present but empty mesh. -/
theorem export_empty_mesh_raises_witness :
    inpEmptyMesh.meshSize = 0 ∧
      analyze_elements inpEmptyMesh = AnalyzeValue.emptyList ∧
      export_flatmapsvg_first_step inpEmptyMesh =
        Except.error ("ValueError: not enough values to unpack (expected 3, got 0)") :=
  ⟨rfl, export_empty_mesh_raises inpEmptyMesh rfl⟩

/-- C2 (amended): for a non-empty batch, `_calculate_tolerance` returns
`10^(−exponent)` where `exponent = max 14 (min significant figures) −
(max magnitude) − 2` whenever `exponent > 0`, and returns `10^(−8)`
otherwise (the claim's `10^8` is wrong on this second branch).  The minimum
and maximum are characterised order-theoretically. -/
theorem calculate_tolerance_formula (n : Dec) (rest : List Dec) (msf mag : Int)
    (hmem : msf ∈ (n :: rest).map (fun d => (count_significant_figs d : Int)))
    (hmin : ∀ x ∈ (n :: rest).map (fun d => (count_significant_figs d : Int)), msf ≤ x)
    (hmem2 : mag ∈ (n :: rest).map magnitudeOf)
    (hmax : ∀ x ∈ (n :: rest).map magnitudeOf, x ≤ mag) :
    calculate_tolerance (n :: rest) =
      if 0 < max 14 msf - mag - 2 then pow10 (-(max 14 msf - mag - 2))
      else pow10 (-8) := by
  have hminfold :
      rest.foldl (fun acc d => min acc ((count_significant_figs d : Int)))
        ((count_significant_figs n : Int)) = msf := by
    rw [foldl_min_map]
    have h1 := foldl_min_mem (rest.map fun d => ((count_significant_figs d : Int)))
      ((count_significant_figs n : Int))
    have h1' : (rest.map fun d => ((count_significant_figs d : Int))).foldl min
        ((count_significant_figs n : Int)) ∈
        (n :: rest).map (fun d => (count_significant_figs d : Int)) := by
      simpa [List.map_cons] using h1
    have h2 := hmin _ h1'
    have h3 : msf ∈ ((count_significant_figs n : Int)) ::
        (rest.map fun d => ((count_significant_figs d : Int))) := by
      simpa [List.map_cons] using hmem
    have h4 := foldl_min_le (rest.map fun d => ((count_significant_figs d : Int)))
      ((count_significant_figs n : Int)) msf h3
    omega
  have hmaxfold :
      rest.foldl (fun acc d => max acc (magnitudeOf d)) (magnitudeOf n) = mag := by
    rw [foldl_max_map]
    have h1 := foldl_max_mem (rest.map magnitudeOf) (magnitudeOf n)
    have h1' : (rest.map magnitudeOf).foldl max (magnitudeOf n) ∈
        (n :: rest).map magnitudeOf := by
      simpa [List.map_cons] using h1
    have h2 := hmax _ h1'
    have h3 : mag ∈ magnitudeOf n :: rest.map magnitudeOf := by
      simpa [List.map_cons] using hmem2
    have h4 := foldl_max_ge (rest.map magnitudeOf) (magnitudeOf n) mag h3
    omega
  simp only [calculate_tolerance, hminfold, hmaxfold]

/-- Witness for C2: the singleton batch `[0.5]` has one significant figure
(floored to 14) and magnitude 0, so the tolerance is `10^(−12)`. -/
theorem calculate_tolerance_formula_witness :
    calculate_tolerance [⟨5, -1⟩] =
      if 0 < max 14 1 - 0 - 2 then pow10 (-(max 14 1 - 0 - 2)) else pow10 (-8) := by
  have hsf : count_significant_figs ⟨5, -1⟩ = 1 := by decide
  have hmg : magnitudeOf ⟨5, -1⟩ = 0 := by
    norm_num [magnitudeOf, Dec.val, pow10, ceilLog10, clogNat, numDigits, numDigitsAux]
  exact calculate_tolerance_formula ⟨5, -1⟩ [] 1 0
    (by simp [hsf]) (by simp [hsf]) (by simp [hmg]) (by simp [hmg])

/-- Counterexample for C2: on the batch `[1e13]` the exponent is
`14 − 13 − 2 = −1 ≤ 0`; the code returns `10^(−8)` while the claim asserts
`10^8`. -/
theorem calculate_tolerance_ne_claimed :
    calculate_tolerance [⟨1, 13⟩] = pow10 (-8) ∧
      claimedTolerance [⟨1, 13⟩] = pow10 8 ∧
      calculate_tolerance [⟨1, 13⟩] ≠ claimedTolerance [⟨1, 13⟩] := by
  have h1 : calculate_tolerance [⟨1, 13⟩] = pow10 (-8) := by
    norm_num [calculate_tolerance, count_significant_figs, magnitudeOf, Dec.val,
      pow10, ceilLog10, numDigits, numDigitsAux, stripZeros, stripZerosAux, clogNat]
  have h2 : claimedTolerance [⟨1, 13⟩] = pow10 8 := by
    norm_num [claimedTolerance, count_significant_figs, magnitudeOf, Dec.val,
      pow10, ceilLog10, numDigits, numDigitsAux, stripZeros, stripZerosAux, clogNat]
  refine ⟨h1, h2, ?_⟩
  rw [h1, h2]
  intro hcon
  have := pow10_pos (-8)
  rw [pow10, pow10] at hcon
  have h8 : ((10 : ℚ) ^ (8 : Int)) = 100000000 := by norm_num
  have hm8 : ((10 : ℚ) ^ (-8 : Int)) = 1 / 100000000 := by norm_num
  rw [h8, hm8] at hcon
  norm_num at hcon

theorem foldl_map {α β γ : Type} (l : List α) (f : α → β) (g : γ → β → γ) (a : γ) :
    l.foldl (fun acc d => g acc (f d)) a = (l.map f).foldl g a := by
  induction l generalizing a with
  | nil => rfl
  | cons b t ih => simp [List.foldl_cons, ih]

theorem foldl_appendUnique (l : List String) : ∀ acc : List String,
    l.foldl appendUnique acc = acc ++ dedupFirst (l.filter (fun y => ¬y ∈ acc)) := by
  induction l with
  | nil => intro acc; simp [dedupFirst]
  | cons x xs ih =>
      intro acc
      by_cases hx : x ∈ acc
      · have hstep : appendUnique acc x = acc := by simp [appendUnique, hx]
        have hfilter : (x :: xs).filter (fun y => ¬y ∈ acc) =
            xs.filter (fun y => ¬y ∈ acc) := by
          simp [List.filter_cons, hx]
        rw [List.foldl_cons, hstep, hfilter, ih]
      · have hstep : appendUnique acc x = acc ++ [x] := by simp [appendUnique, hx]
        have hfilter : (x :: xs).filter (fun y => ¬y ∈ acc) =
            x :: xs.filter (fun y => ¬y ∈ acc) := by
          simp [List.filter_cons, hx]
        rw [List.foldl_cons, hstep, ih (acc ++ [x]), hfilter]
        have hff : xs.filter (fun y => ¬y ∈ acc ++ [x]) =
            (xs.filter (fun y => ¬y ∈ acc)).filter (fun y => y ≠ x) := by
          rw [List.filter_filter]
          apply List.filter_congr
          intro y _
          by_cases h1 : y = x <;> by_cases h2 : y ∈ acc <;>
            simp [h1, h2, List.mem_append]
        rw [hff]
        have hd : dedupFirst (x :: xs.filter (fun y => ¬y ∈ acc)) =
            x :: dedupFirst ((xs.filter (fun y => ¬y ∈ acc)).filter (fun y => y ≠ x)) := by
          rw [dedupFirst]
        rw [hd]
        simp

theorem dedupFirst_subset_aux {α : Type} [DecidableEq α] :
    ∀ (n : Nat) (l : List α), l.length ≤ n → ∀ y ∈ dedupFirst l, y ∈ l := by
  intro n
  induction n with
  | zero =>
      intro l hl y hy
      have : l = [] := List.length_eq_zero.1 (Nat.le_zero.1 hl)
      subst this
      simp [dedupFirst] at hy
  | succ n ih =>
      intro l hl y hy
      cases l with
      | nil => simp [dedupFirst] at hy
      | cons x xs =>
          rw [dedupFirst] at hy
          rcases List.mem_cons.1 hy with h | h
          · simp [h]
          · have hlen : (xs.filter (fun y => y ≠ x)).length ≤ n :=
              le_trans (List.length_filter_le _ _)
                (by simpa [List.length_cons, Nat.succ_le_succ_iff] using hl)
            have hmem := ih _ hlen y h
            exact List.mem_cons.2 (Or.inr (List.mem_of_mem_filter hmem))

theorem dedupFirst_subset {α : Type} [DecidableEq α] (l : List α) :
    ∀ y ∈ dedupFirst l, y ∈ l :=
  dedupFirst_subset_aux l.length l le_rfl

theorem dedupFirst_nodup_aux {α : Type} [DecidableEq α] :
    ∀ (n : Nat) (l : List α), l.length ≤ n → (dedupFirst l).Nodup := by
  intro n
  induction n with
  | zero =>
      intro l hl
      have : l = [] := List.length_eq_zero.1 (Nat.le_zero.1 hl)
      subst this
      simp [dedupFirst]
  | succ n ih =>
      intro l hl
      cases l with
      | nil => simp [dedupFirst]
      | cons x xs =>
          rw [dedupFirst]
          have hlen : (xs.filter (fun y => y ≠ x)).length ≤ n :=
            le_trans (List.length_filter_le _ _)
              (by simpa [List.length_cons, Nat.succ_le_succ_iff] using hl)
          refine List.nodup_cons.2 ⟨?_, ih _ hlen⟩
          intro hx
          have := dedupFirst_subset _ x hx
          have := List.of_mem_filter this
          simp at this

theorem dedupFirst_nodup {α : Type} [DecidableEq α] (l : List α) :
    (dedupFirst l).Nodup :=
  dedupFirst_nodup_aux l.length l le_rfl

/-- C4 (amended): for every group, the label list built by
`_determine_network` is the sorted-by-offset label sequence with every label
that already occurs anywhere earlier in the group's list removed (first
occurrence kept) — not merely labels equal to the immediately preceding one;
a label equal to an earlier, non-adjacent label is skipped too. -/
theorem determine_network_edges_dedup (np : List (String × List (ℚ × List Dec))) :
    (determine_network_assembly np).1 =
      np.map (fun g =>
        (g.1, dedupFirst ((sortByOffset g.2).map (fun v => asmLabelOfPoint np v.2)))) := by
  unfold determine_network_assembly
  apply List.map_congr_left
  intro g _
  unfold asmGroupEdge
  rw [foldl_map (sortByOffset g.2) (fun v => asmLabelOfPoint np v.2) appendUnique []]
  rw [foldl_appendUnique]
  simp

/-- C9: every group's label list in the network plan returned by
`_determine_network` contains no duplicate labels at all, because a label is
appended only when it is not already present anywhere in that group's list. -/
theorem network_edges_nodup (np : List (String × List (ℚ × List Dec)))
    (g : String) (ls : List String)
    (h : (g, ls) ∈ (determine_network_assembly np).1) : ls.Nodup := by
  unfold determine_network_assembly at h
  obtain ⟨a, _, heq⟩ := List.mem_map.1 h
  have hls : ls = asmGroupEdge np a.2 := by
    have := congrArg Prod.snd heq
    simpa using this.symm
  rw [hls]
  unfold asmGroupEdge
  rw [foldl_map (sortByOffset a.2) (fun v => asmLabelOfPoint np v.2) appendUnique []]
  rw [foldl_appendUnique]
  simpa using dedupFirst_nodup _

theorem npX_keyTol : asmKeyTol npX = pow10 12 := by
  norm_num [asmKeyTol, asmNumbers, asmPoints, npX, ptP, ptQ, calculate_tolerance,
    count_significant_figs, magnitudeOf, Dec.val, pow10, ceilLog10, numDigits,
    numDigitsAux, stripZeros, stripZerosAux, clogNat]

theorem pointKey_ptP : pointKey (pow10 12) ptP = [0, 0] := by
  norm_num [pointKey, ptP, create_key, truncQ, Dec.val, pow10]

theorem pointKey_ptQ : pointKey (pow10 12) ptQ = [1000000000000, 0] := by
  norm_num [pointKey, ptQ, create_key, truncQ, Dec.val, pow10]

theorem npX_keys : asmKeys npX = [[0, 0], [1000000000000, 0], [0, 0]] := by
  rw [asmKeys, npX_keyTol]
  simp [asmPoints, npX, pointKey_ptP, pointKey_ptQ]

theorem npX_labelP : asmLabelOfPoint npX ptP = "point_1" := by
  rw [asmLabelOfPoint, npX_keyTol, pointKey_ptP, asmSizeDigits, asmIndexMapPts, npX_keys,
    asmHash, npX_keys]
  have hpts : asmPoints npX = [ptP, ptQ, ptP] := by simp [asmPoints, npX]
  rw [hpts]
  decide

theorem npX_labelQ : asmLabelOfPoint npX ptQ = "point_2" := by
  rw [asmLabelOfPoint, npX_keyTol, pointKey_ptQ, asmSizeDigits, asmIndexMapPts, npX_keys,
    asmHash, npX_keys]
  have hpts : asmPoints npX = [ptP, ptQ, ptP] := by simp [asmPoints, npX]
  rw [hpts]
  decide

theorem npX_sort :
    sortByOffset [(0, ptP), (1, ptQ), (2, ptP)] = [(0, ptP), (1, ptQ), (2, ptP)] := by
  norm_num [sortByOffset, insertByOffset]

/-- Counterexample for C4: in the one-group input `npX` the path returns to
its start point (`ptP` at offsets 0 and 2, `ptQ` between), so the label
`point_1` recurs non-adjacently; `_determine_network` drops the recurrence
(its membership test scans the whole list), while the claim's
skip-only-if-adjacent rule would keep it. -/
theorem network_edge_drops_nonadjacent_duplicate :
    (determine_network_assembly npX).1 = [("a", ["point_1", "point_2"])] ∧
      asmGroupEdgeAdjacent npX [(0, ptP), (1, ptQ), (2, ptP)] =
        ["point_1", "point_2", "point_1"] ∧
      asmGroupEdge npX [(0, ptP), (1, ptQ), (2, ptP)] ≠
        asmGroupEdgeAdjacent npX [(0, ptP), (1, ptQ), (2, ptP)] := by
  have hedge : asmGroupEdge npX [(0, ptP), (1, ptQ), (2, ptP)] =
      ["point_1", "point_2"] := by
    rw [asmGroupEdge, npX_sort]
    simp only [List.foldl_cons, List.foldl_nil, npX_labelP, npX_labelQ]
    decide
  have hadj : asmGroupEdgeAdjacent npX [(0, ptP), (1, ptQ), (2, ptP)] =
      ["point_1", "point_2", "point_1"] := by
    rw [asmGroupEdgeAdjacent, npX_sort]
    simp only [List.foldl_cons, List.foldl_nil, npX_labelP, npX_labelQ]
    decide
  refine ⟨?_, hadj, ?_⟩
  · have hD : (determine_network_assembly npX).1 =
        [("a", asmGroupEdge npX [(0, ptP), (1, ptQ), (2, ptP)])] := rfl
    rw [hD, hedge]
  · rw [hedge, hadj]
    decide

theorem npW_keyTol : asmKeyTol npW = pow10 12 := by
  norm_num [asmKeyTol, asmNumbers, asmPoints, npW, ptP, calculate_tolerance,
    count_significant_figs, magnitudeOf, Dec.val, pow10, ceilLog10, numDigits,
    numDigitsAux, stripZeros, stripZerosAux, clogNat]

theorem npW_keys : asmKeys npW = [[0, 0]] := by
  rw [asmKeys, npW_keyTol]
  simp [asmPoints, npW, pointKey_ptP]

theorem npW_label : asmLabelOfPoint npW ptP = "point_1" := by
  rw [asmLabelOfPoint, npW_keyTol, pointKey_ptP, asmSizeDigits, asmIndexMapPts, npW_keys,
    asmHash, npW_keys]
  have hpts : asmPoints npW = [ptP] := by simp [asmPoints, npW]
  rw [hpts]
  decide

/-- Witness for C9: in the one-group input `npW` the produced label list
`["point_1"]` is a member of the plan and has no duplicates. -/
theorem network_edges_nodup_witness :
    ("g", ["point_1"]) ∈ (determine_network_assembly npW).1 ∧
      (["point_1"] : List String).Nodup := by
  have hedge : asmGroupEdge npW [(0, ptP)] = ["point_1"] := by
    have hsort : sortByOffset [(0, ptP)] = [(0, ptP)] := by
      norm_num [sortByOffset, insertByOffset]
    rw [asmGroupEdge, hsort]
    simp only [List.foldl_cons, List.foldl_nil, npW_label]
    decide
  have hD : (determine_network_assembly npW).1 = [("g", asmGroupEdge npW [(0, ptP)])] :=
    rfl
  have hmem : ("g", ["point_1"]) ∈ (determine_network_assembly npW).1 := by
    rw [hD, hedge]
    simp
  exact ⟨hmem, network_edges_nodup npW "g" ["point_1"] hmem⟩

/-- C5 (amended): when the Branch Locator records a best parent candidate for
a group, the entry appended to the parent's point list is the pair of (a) the
relative offset `magnitude(material_location − parent.start_value) /
magnitude(parent.end_value − parent.start_value)` computed with Euclidean
magnitudes of the 3-component material-coordinate vectors, and (b) the first
two components of the *nearest-location Cartesian point found on the parent*
(`values[3][:2]`) — not the branch group's own start point. -/
theorem branch_insertion_entry (gname parent : String)
    (eps epp : List (List ℚ × List ℚ)) (cand : BranchCand)
    (mv : List (String × BranchCand)) (sv ev : List (String × List ℚ))
    (bs be : List ℚ)
    (hne : gname ≠ parent)
    (hc : lookupA mv gname = some cand)
    (hp : cand.parent = some parent)
    (hcp : lookupA mv parent = none)
    (hbs : lookupA sv parent = some bs)
    (hbe : lookupA ev parent = some be) :
    lookupA (buildNetworkPoints [(gname, eps), (parent, epp)] mv sv ev) parent =
      some (initialPoints epp ++
        [(magnitude (vec_sub cand.materialLoc bs) / magnitude (vec_sub be bs),
          cand.cartLoc.take 2)]) := by
  unfold buildNetworkPoints
  rw [List.foldl_cons, List.foldl_cons, List.foldl_nil]
  have hstep1 : networkPointsStep [(gname, eps), (parent, epp)] mv sv ev [] (gname, eps) =
      [(gname, initialPoints eps),
        (parent, initialPoints epp ++
          [(magnitude (vec_sub cand.materialLoc bs) / magnitude (vec_sub be bs),
            cand.cartLoc.take 2)])] := by
    unfold networkPointsStep
    simp only [hc, hp]
    unfold getOrInit appendEntry
    simp only [lookupA, hbs, hbe, Option.getD_some, if_neg hne, reduceCtorEq,
      List.map_cons, List.map_nil, if_pos rfl]
    simp [hne, Ne.symm hne]
  rw [hstep1]
  have hstep2 : networkPointsStep [(gname, eps), (parent, epp)] mv sv ev
      [(gname, initialPoints eps),
        (parent, initialPoints epp ++
          [(magnitude (vec_sub cand.materialLoc bs) / magnitude (vec_sub be bs),
            cand.cartLoc.take 2)])] (parent, epp) =
      [(gname, initialPoints eps),
        (parent, initialPoints epp ++
          [(magnitude (vec_sub cand.materialLoc bs) / magnitude (vec_sub be bs),
            cand.cartLoc.take 2)])] := by
    unfold networkPointsStep
    simp only [hcp]
    unfold getOrInit
    simp [lookupA, hne, Ne.symm hne]
  rw [hstep2]
  simp [lookupA, hne, Ne.symm hne]

/-- Counterexample for C5: for the branch group "b" (own start point
`(0, 0)`) with best candidate on parent "t" whose nearest Cartesian location
is `(1e-13, 0, 0)`, the entry appended to "t"'s point list carries the point
`(1e-13, 0)` — the nearest location on the parent — and not the branch's own
start point `(0, 0)` as the claim states. -/
theorem branch_insertion_not_branch_start :
    (((lookupA epdX "b").getD []).headD ([], [])).1 = [0, 0] ∧
      ((lookupA (buildNetworkPoints epdX minValueX startValueX endValueX) "t").getD
          []).map Prod.snd = [[10, 0], [20, 0], [1 / 10 ^ 13, 0]] ∧
      ([1 / 10 ^ 13, 0] : List ℚ) ≠ [0, 0] := by
  refine ⟨by norm_num [epdX, lookupA], ?_, by norm_num⟩
  have hb : buildNetworkPoints epdX minValueX startValueX endValueX =
      [("b", initialPoints [([0, 0], [5, 5])]),
        ("t", initialPoints [([10, 0], [20, 0])] ++
          [(magnitude (vec_sub [3, 0, 0] [0, 0, 0]) /
              magnitude (vec_sub [3, 4, 0] [0, 0, 0]), [1 / 10 ^ 13, 0])])] := by
    unfold buildNetworkPoints
    have hstep1 : networkPointsStep epdX minValueX startValueX endValueX []
        ("b", [([0, 0], [5, 5])]) =
        [("b", initialPoints [([0, 0], [5, 5])]),
          ("t", initialPoints [([10, 0], [20, 0])] ++
            [(magnitude (vec_sub [3, 0, 0] [0, 0, 0]) /
                magnitude (vec_sub [3, 4, 0] [0, 0, 0]), [1 / 10 ^ 13, 0])])] := by
      unfold networkPointsStep
      rw [show lookupA minValueX "b" =
          some ⟨1 / 10 ^ 13, some "t", [3, 0, 0], [1 / 10 ^ 13, 0, 0]⟩ from rfl]
      simp only
      rw [show lookupA startValueX "t" = some [0, 0, 0] from rfl,
        show lookupA endValueX "t" = some [3, 4, 0] from rfl]
      unfold getOrInit appendEntry
      simp [lookupA, epdX, List.take]
    have hstep2 : networkPointsStep epdX minValueX startValueX endValueX
        [("b", initialPoints [([0, 0], [5, 5])]),
          ("t", initialPoints [([10, 0], [20, 0])] ++
            [(magnitude (vec_sub [3, 0, 0] [0, 0, 0]) /
                magnitude (vec_sub [3, 4, 0] [0, 0, 0]), [1 / 10 ^ 13, 0])])]
        ("t", [([10, 0], [20, 0])]) =
        [("b", initialPoints [([0, 0], [5, 5])]),
          ("t", initialPoints [([10, 0], [20, 0])] ++
            [(magnitude (vec_sub [3, 0, 0] [0, 0, 0]) /
                magnitude (vec_sub [3, 4, 0] [0, 0, 0]), [1 / 10 ^ 13, 0])])] := by
      unfold networkPointsStep
      rw [show lookupA minValueX "t" = none from rfl]
      unfold getOrInit
      simp [lookupA]
    have hunf : epdX.foldl (networkPointsStep epdX minValueX startValueX endValueX) [] =
        networkPointsStep epdX minValueX startValueX endValueX
          (networkPointsStep epdX minValueX startValueX endValueX []
            ("b", [([0, 0], [5, 5])]))
          ("t", [([10, 0], [20, 0])]) := rfl
    rw [hunf, hstep1, hstep2]
  rw [hb]
  simp [lookupA, initialPoints]

/-- Witness for C5 (amended): the appended entry for the concrete inputs of
`epdX`. -/
theorem branch_insertion_entry_witness :
    lookupA (buildNetworkPoints [("b", [([0, 0], [5, 5])]), ("t", [([10, 0], [20, 0])])]
        minValueX startValueX endValueX) "t" =
      some (initialPoints [([10, 0], [20, 0])] ++
        [(magnitude (vec_sub [3, 0, 0] [0, 0, 0]) /
            magnitude (vec_sub [3, 4, 0] [0, 0, 0]), [1 / 10 ^ 13, 0])]) := by
  have h := branch_insertion_entry "b" "t" [([0, 0], [5, 5])] [([10, 0], [20, 0])]
    ⟨1 / 10 ^ 13, some "t", [3, 0, 0], [1 / 10 ^ 13, 0, 0]⟩
    minValueX startValueX endValueX [0, 0, 0] [3, 4, 0]
    (by decide) rfl rfl rfl rfl rfl
  simpa [List.take] using h

theorem cyc_keyTol : stitchKeyTol [cycA, cycB] = pow10 11 := by
  norm_num [stitchKeyTol, curveNumbers, curveNums, cycA, cycB, calculate_tolerance,
    count_significant_figs, magnitudeOf, Dec.val, pow10, ceilLog10, numDigits,
    numDigitsAux, stripZeros, stripZerosAux, clogNat]

theorem cyc_keys0 :
    keys0Of [cycA, cycB] =
      [[100000000000, 100000000000], [200000000000, 100000000000]] := by
  rw [keys0Of, cyc_keyTol]
  norm_num [cycA, cycB, keyOfPt, create_key, truncQ, Dec.val, pow10]

theorem cyc_keys3 :
    keys3Of [cycA, cycB] =
      [[200000000000, 100000000000], [100000000000, 100000000000]] := by
  rw [keys3Of, cyc_keyTol]
  norm_num [cycA, cycB, keyOfPt, create_key, truncQ, Dec.val, pow10]

/-- C3 (code bug): on the two-curve cycle `cycA : (1,1)→(2,1)`,
`cycB : (2,1)→(1,1)` the chain-reconstruction loop of `_connected_segments`
never terminates: from either of the two keys the traversal always follows a
link to the other (the `old_key == key` guard only stops one-curve
self-loops), so the loop body exhausts any amount of fuel, and
`_connected_segments` diverges on this input. -/
theorem stitcher_two_cycle_loops_forever :
    (∀ (fuel : Nat) (seg : List Nat),
        buildSegAux (keys3Of [cycA, cycB]) (buildBeginHash (keys0Of [cycA, cycB]))
          fuel [100000000000, 100000000000] seg = none ∧
        buildSegAux (keys3Of [cycA, cycB]) (buildBeginHash (keys0Of [cycA, cycB]))
          fuel [200000000000, 100000000000] seg = none) ∧
      connected_segments [cycA, cycB] = none := by
  constructor
  · rw [cyc_keys0, cyc_keys3]
    intro fuel
    induction fuel with
    | zero => intro seg; exact ⟨rfl, rfl⟩
    | succ f ih =>
        intro seg
        constructor
        · simp only [buildSegAux,
            show lookupA
              (buildBeginHash [[100000000000, 100000000000], [200000000000, 100000000000]])
              [100000000000, 100000000000] = some 0 from by decide,
            show ([[200000000000, 100000000000], [100000000000, 100000000000]] :
              List (List Int)).get? 0 = some [200000000000, 100000000000] from by decide]
          rw [if_neg (by decide : ¬([100000000000, 100000000000] : List Int) =
            [200000000000, 100000000000])]
          exact (ih (seg ++ [0])).2
        · simp only [buildSegAux,
            show lookupA
              (buildBeginHash [[100000000000, 100000000000], [200000000000, 100000000000]])
              [200000000000, 100000000000] = some 1 from by decide,
            show ([[200000000000, 100000000000], [100000000000, 100000000000]] :
              List (List Int)).get? 1 = some [100000000000, 100000000000] from by decide]
          rw [if_neg (by decide : ¬([200000000000, 100000000000] : List Int) =
            [100000000000, 100000000000])]
          exact (ih (seg ++ [1])).1
  · rw [connected_segments, cyc_keys0, cyc_keys3]
    rw [show stitchCore [[100000000000, 100000000000], [200000000000, 100000000000]]
        [[200000000000, 100000000000], [100000000000, 100000000000]] = none from by decide]
    rfl

theorem foldl_min_perm (l1 l2 : List Int) (a1 a2 : Int)
    (h : (a1 :: l1).Perm (a2 :: l2)) : l1.foldl min a1 = l2.foldl min a2 := by
  apply le_antisymm
  · exact foldl_min_le l1 a1 (l2.foldl min a2)
      (h.symm.mem_iff.1 (foldl_min_mem l2 a2))
  · exact foldl_min_le l2 a2 (l1.foldl min a1)
      (h.mem_iff.1 (foldl_min_mem l1 a1))

theorem foldl_max_perm (l1 l2 : List Int) (a1 a2 : Int)
    (h : (a1 :: l1).Perm (a2 :: l2)) : l1.foldl max a1 = l2.foldl max a2 := by
  apply le_antisymm
  · exact foldl_max_ge l2 a2 (l1.foldl max a1)
      (h.mem_iff.1 (foldl_max_mem l1 a1))
  · exact foldl_max_ge l1 a1 (l2.foldl max a2)
      (h.symm.mem_iff.1 (foldl_max_mem l2 a2))

theorem curveNumbers_perm {L1 L2 : List Curve} (h : L1.Perm L2) :
    (curveNumbers L1).Perm (curveNumbers L2) := by
  induction h with
  | nil => exact List.Perm.refl _
  | cons c _ ih =>
      simp only [curveNumbers]
      exact ih.append_left (curveNums c)
  | swap x y l =>
      simp only [curveNumbers]
      rw [← List.append_assoc, ← List.append_assoc]
      exact List.perm_append_comm.append_right (curveNumbers l)
  | trans _ _ ih1 ih2 => exact ih1.trans ih2

theorem calculate_tolerance_perm {l1 l2 : List Dec} (h : l1.Perm l2) :
    calculate_tolerance l1 = calculate_tolerance l2 := by
  cases l1 with
  | nil =>
      have := h.nil_eq
      rw [← this]
  | cons n1 r1 =>
      cases l2 with
      | nil => simp at h
      | cons n2 r2 =>
          simp only [calculate_tolerance]
          have hm : r1.foldl (fun acc d => min acc ((count_significant_figs d : Int)))
              ((count_significant_figs n1 : Int)) =
              r2.foldl (fun acc d => min acc ((count_significant_figs d : Int)))
                ((count_significant_figs n2 : Int)) := by
            have e1 := foldl_min_map r1 (fun d => ((count_significant_figs d : Int)))
              ((count_significant_figs n1 : Int))
            have e2 := foldl_min_map r2 (fun d => ((count_significant_figs d : Int)))
              ((count_significant_figs n2 : Int))
            rw [e1, e2]
            exact foldl_min_perm _ _ _ _
              (by simpa [List.map_cons] using
                h.map (fun d => (count_significant_figs d : Int)))
          have hM : r1.foldl (fun acc d => max acc (magnitudeOf d)) (magnitudeOf n1) =
              r2.foldl (fun acc d => max acc (magnitudeOf d)) (magnitudeOf n2) := by
            have e1 := foldl_max_map r1 magnitudeOf (magnitudeOf n1)
            have e2 := foldl_max_map r2 magnitudeOf (magnitudeOf n2)
            rw [e1, e2]
            exact foldl_max_perm _ _ _ _
              (by simpa [List.map_cons] using h.map magnitudeOf)
          rw [hm, hM]

theorem stitchKeyTol_perm {L1 L2 : List Curve} (h : L1.Perm L2) :
    stitchKeyTol L1 = stitchKeyTol L2 := by
  rw [stitchKeyTol, stitchKeyTol, calculate_tolerance_perm (curveNumbers_perm h)]

theorem lookupA_hashInsert {β : Type} (h : List (List Int × β)) (kI : List Int)
    (v : β) (k : List Int) :
    lookupA (hashInsert h kI v) k = if kI = k then some v else lookupA h k := by
  induction h with
  | nil => simp [hashInsert, lookupA]
  | cons p t ih =>
      obtain ⟨k0, v0⟩ := p
      by_cases h1 : k0 = kI
      · subst h1
        by_cases h2 : k0 = k <;> simp [hashInsert, lookupA, h2]
      · by_cases h2 : k0 = k
        · subst h2
          have h3 : ¬kI = k0 := fun hc => h1 hc.symm
          simp [hashInsert, lookupA, h1, h3]
        · simp [hashInsert, lookupA, h1, h2, ih]

theorem lookup_foldl_hashInsert (l : List (Nat × List Int)) :
    ∀ (acc : List (List Int × Nat)) (k : List Int), (∀ p ∈ l, p.2 ≠ k) →
      lookupA acc k = none →
      lookupA (l.foldl (fun h p => hashInsert h p.2 p.1) acc) k = none := by
  induction l with
  | nil => intro acc k _ hacc; simpa using hacc
  | cons p t ih =>
      intro acc k hk hacc
      rw [List.foldl_cons]
      apply ih _ _ (fun q hq => hk q (List.mem_cons.2 (Or.inr hq)))
      rw [lookupA_hashInsert, if_neg (hk p (List.mem_cons_self _ _))]
      exact hacc

theorem lookup_buildBeginHash_none (keys : List (List Int)) (k : List Int)
    (hk : ¬k ∈ keys) : lookupA (buildBeginHash keys) k = none := by
  apply lookup_foldl_hashInsert
  · intro p hp hpk
    apply hk
    rw [← hpk]
    have hmem : p.2 ∈ keys.enum.map Prod.snd := List.mem_map_of_mem Prod.snd hp
    simpa [List.enum_map_snd] using hmem
  · rfl

theorem foldl_unions_const (hash : List (List Int × Nat)) (l : List (Nat × List Int)) :
    ∀ par : List Int, (∀ p ∈ l, lookupA hash p.2 = none) →
      l.foldl (fun par p =>
        match lookupA hash p.2 with
        | some s => ufUnion par s p.1
        | none => par) par = par := by
  induction l with
  | nil => intro par _; rfl
  | cons p t ih =>
      intro par hp
      rw [List.foldl_cons]
      have h1 := hp p (List.mem_cons_self _ _)
      simp only [h1]
      exact ih par (fun q hq => hp q (List.mem_cons.2 (Or.inr hq)))

theorem applyUnions_no_links (k3 : List (List Int)) (hash : List (List Int × Nat))
    (n : Nat) (h : ∀ k ∈ k3, lookupA hash k = none) :
    applyUnions k3 hash n = List.replicate n (-1) := by
  rw [applyUnions]
  apply foldl_unions_const
  intro p hp
  apply h
  have hmem : p.2 ∈ k3.enum.map Prod.snd := List.mem_map_of_mem Prod.snd hp
  simpa [List.enum_map_snd] using hmem

theorem getD_replicate_neg (n : Nat) : ∀ i : Nat,
    (List.replicate n ((-1 : Int))).getD i (-1) = -1 := by
  induction n with
  | zero => intro i; simp
  | succ m ih =>
      intro i
      cases i with
      | zero => simp [List.replicate]
      | succ j => simp [List.replicate, ih j]

theorem ufFind_id (n fuel i : Nat) : ufFind (List.replicate n (-1)) fuel i = i := by
  cases fuel with
  | zero => rfl
  | succ f => simp [ufFind, getD_replicate_neg]

theorem addToSets_new (sets : List (Nat × List Nat)) (r i : Nat)
    (h : ∀ p ∈ sets, p.1 ≠ r) :
    addToSets sets r i = sets ++ [(r, [i])] := by
  induction sets with
  | nil => rfl
  | cons p t ih =>
      obtain ⟨r', l⟩ := p
      have h1 : r' ≠ r := h (r', l) (List.mem_cons_self _ _)
      simp only [addToSets, if_neg h1, List.cons_append]
      rw [ih (fun q hq => h q (List.mem_cons.2 (Or.inr hq)))]

theorem foldl_addToSets_range (n : Nat) :
    (List.range n).foldl (fun sets i => addToSets sets i i) [] =
      (List.range n).map (fun i => (i, [i])) := by
  induction n with
  | zero => rfl
  | succ m ih =>
      rw [List.range_succ, List.foldl_append, List.foldl_cons, List.foldl_nil, ih,
        List.map_append]
      rw [addToSets_new]
      · simp
      · intro p hp
        obtain ⟨j, hj, rfl⟩ := List.mem_map.1 hp
        have hlt := List.mem_range.1 hj
        simp only
        omega

theorem buildSets_id (n : Nat) :
    buildSets (List.replicate n (-1)) n = (List.range n).map (fun i => (i, [i])) := by
  rw [buildSets]
  have hfun : (fun (sets : List (Nat × List Nat)) (i : Nat) =>
      addToSets sets
        (ufFind (List.replicate n (-1)) (List.replicate n ((-1 : Int))).length i) i) =
      fun sets i => addToSets sets i i := by
    funext sets i
    rw [ufFind_id]
  rw [hfun, foldl_addToSets_range]

theorem buildSeg_singleton (k3 : List (List Int)) (hash : List (List Int × Nat))
    (fuel i : Nat) (k : List Int)
    (hget : k3.get? i = some k) (hnone : lookupA hash k = none) (hf : 1 ≤ fuel) :
    buildSeg k3 hash fuel i = some [i] := by
  rw [buildSeg, hget]
  cases fuel with
  | zero => omega
  | succ f => simp [buildSegAux, hnone]

theorem segmentsLoop_singletons (k3 : List (List Int)) (hash : List (List Int × Nat))
    (fuel : Nat) (l : List Nat)
    (h : ∀ i ∈ l, buildSeg k3 hash fuel i = some [i]) :
    segmentsLoop k3 hash fuel (l.map (fun i => (i, [i]))) =
      some (l.map (fun i => [i])) := by
  induction l with
  | nil => rfl
  | cons j t ih =>
      rw [List.map_cons, List.map_cons]
      simp only [segmentsLoop, h j (List.mem_cons_self _ _),
        ih (fun i hi => h i (List.mem_cons.2 (Or.inr hi)))]

theorem stitchCore_no_links (k0 k3 : List (List Int)) (hlen : k3.length = k0.length)
    (hnl : ∀ k ∈ k3, lookupA (buildBeginHash k0) k = none) :
    stitchCore k0 k3 = some ((List.range k0.length).map (fun i => [i])) := by
  simp only [stitchCore]
  rw [applyUnions_no_links k3 (buildBeginHash k0) k0.length hnl, buildSets_id]
  apply segmentsLoop_singletons
  intro i hi
  have hilt : i < k3.length := by
    rw [hlen]
    exact List.mem_range.1 hi
  have hk : k3.get? i = some (k3.get ⟨i, hilt⟩) := List.get?_eq_get hilt
  exact buildSeg_singleton k3 (buildBeginHash k0) (k0.length + 2) i
    (k3.get ⟨i, hilt⟩) hk (hnl _ (k3.get_mem i hilt)) (by omega)

theorem range_map_getD_pair (l : List Curve) (f g : Curve → List Int) :
    (List.range l.length).map
        (fun i => ((l.map f).getD i [], (l.map g).getD i [])) =
      l.map (fun c => (f c, g c)) := by
  induction l with
  | nil => rfl
  | cons c t ih =>
      rw [List.length_cons, List.range_succ_eq_map]
      simp only [List.map_cons, List.map_map, List.getD_cons_zero]
      congr 1

theorem chainPairs_no_links (L : List Curve)
    (hnl : ∀ k ∈ keys3Of L, ¬k ∈ keys0Of L) :
    chainPairs L = some (↑(L.map (fun c =>
      (keyOfPt (stitchKeyTol L) c.b0, keyOfPt (stitchKeyTol L) c.b3)))) := by
  simp only [chainPairs]
  have hlen : (keys3Of L).length = (keys0Of L).length := by
    simp [keys0Of, keys3Of]
  rw [stitchCore_no_links (keys0Of L) (keys3Of L) hlen
    (fun k hk => lookup_buildBeginHash_none _ _ (hnl k hk))]
  rw [Option.map_some']
  congr 1
  rw [List.map_map]
  have hmap : ((List.range (keys0Of L).length).map
      ((fun seg => ((keys0Of L).getD (seg.headD 0) [],
        (keys3Of L).getD (seg.getLastD 0) [])) ∘ fun i => [i])) =
      (List.range (keys0Of L).length).map
        (fun i => ((keys0Of L).getD i [], (keys3Of L).getD i [])) := by
    apply List.map_congr_left
    intro i _
    simp [Function.comp]
  rw [hmap]
  have hlen0 : (keys0Of L).length = L.length := by simp [keys0Of]
  rw [hlen0]
  rw [show keys0Of L = L.map (fun c => keyOfPt (stitchKeyTol L) c.b0) from rfl,
    show keys3Of L = L.map (fun c => keyOfPt (stitchKeyTol L) c.b3) from rfl]
  rw [range_map_getD_pair]

/-- C6 (amended): the set of Chains of `_connected_segments` (as unordered
(start-key, end-key) pairs) is invariant under permutation of the input curve
list when no curve's end key coincides with any curve's start key (every
curve is then its own Chain).  In general the invariance fails: when two
curves share a start key, the overwritten `begin_hash` entry makes the chain
set depend on input order. -/
theorem stitcher_perm_no_links (L1 L2 : List Curve) (hperm : L1.Perm L2)
    (hnl : ∀ k ∈ keys3Of L1, ¬k ∈ keys0Of L1) :
    chainPairs L1 = chainPairs L2 := by
  have htol : stitchKeyTol L1 = stitchKeyTol L2 := stitchKeyTol_perm hperm
  have h3 : (keys3Of L1).Perm (keys3Of L2) := by
    rw [keys3Of, keys3Of, htol]
    exact hperm.map _
  have h0 : (keys0Of L1).Perm (keys0Of L2) := by
    rw [keys0Of, keys0Of, htol]
    exact hperm.map _
  have hnl2 : ∀ k ∈ keys3Of L2, ¬k ∈ keys0Of L2 := by
    intro k hk hk0
    exact hnl k (h3.mem_iff.2 hk) (h0.mem_iff.2 hk0)
  rw [chainPairs_no_links L1 hnl, chainPairs_no_links L2 hnl2]
  rw [← htol]
  congr 1
  exact Multiset.coe_eq_coe.2 (hperm.map _)

theorem sh1_keyTol : stitchKeyTol [shA, shB, shC] = pow10 11 := by
  norm_num [stitchKeyTol, curveNumbers, curveNums, shA, shB, shC, calculate_tolerance,
    count_significant_figs, magnitudeOf, Dec.val, pow10, ceilLog10, numDigits,
    numDigitsAux, stripZeros, stripZerosAux, clogNat]

theorem sh2_keyTol : stitchKeyTol [shB, shA, shC] = pow10 11 := by
  norm_num [stitchKeyTol, curveNumbers, curveNums, shA, shB, shC, calculate_tolerance,
    count_significant_figs, magnitudeOf, Dec.val, pow10, ceilLog10, numDigits,
    numDigitsAux, stripZeros, stripZerosAux, clogNat]

theorem sh1_keys0 :
    keys0Of [shA, shB, shC] =
      [[100000000000, 100000000000], [100000000000, 100000000000],
        [400000000000, 100000000000]] := by
  rw [keys0Of, sh1_keyTol]
  norm_num [shA, shB, shC, keyOfPt, create_key, truncQ, Dec.val, pow10]

theorem sh1_keys3 :
    keys3Of [shA, shB, shC] =
      [[200000000000, 100000000000], [300000000000, 100000000000],
        [100000000000, 100000000000]] := by
  rw [keys3Of, sh1_keyTol]
  norm_num [shA, shB, shC, keyOfPt, create_key, truncQ, Dec.val, pow10]

theorem sh2_keys0 :
    keys0Of [shB, shA, shC] =
      [[100000000000, 100000000000], [100000000000, 100000000000],
        [400000000000, 100000000000]] := by
  rw [keys0Of, sh2_keyTol]
  norm_num [shA, shB, shC, keyOfPt, create_key, truncQ, Dec.val, pow10]

theorem sh2_keys3 :
    keys3Of [shB, shA, shC] =
      [[300000000000, 100000000000], [200000000000, 100000000000],
        [100000000000, 100000000000]] := by
  rw [keys3Of, sh2_keyTol]
  norm_num [shA, shB, shC, keyOfPt, create_key, truncQ, Dec.val, pow10]

/-- Counterexample for C6: `shA` and `shB` share their start point `(1, 1)`
and `shC` ends there.  Swapping `shA` and `shB` changes which of the two the
overwritten `begin_hash` entry keeps, so the reconstructed chains differ even
as unordered (start-key, end-key) pairs: `{(1,1)→(2,1), (4,1)→(3,1)}` for one
order versus `{(1,1)→(3,1), (4,1)→(2,1)}` for the other. -/
theorem stitcher_reorder_changes_chains :
    ([shA, shB, shC].Perm [shB, shA, shC]) ∧
      chainPairs [shA, shB, shC] ≠ chainPairs [shB, shA, shC] := by
  constructor
  · exact List.Perm.swap shB shA [shC]
  · simp only [chainPairs, sh1_keys0, sh1_keys3, sh2_keys0, sh2_keys3]
    decide

theorem wt_keyTol : stitchKeyTol [wA, wB] = pow10 11 := by
  norm_num [stitchKeyTol, curveNumbers, curveNums, wA, wB, calculate_tolerance,
    count_significant_figs, magnitudeOf, Dec.val, pow10, ceilLog10, numDigits,
    numDigitsAux, stripZeros, stripZerosAux, clogNat]

theorem wt_keys0 :
    keys0Of [wA, wB] = [[100000000000, 100000000000], [300000000000, 100000000000]] := by
  rw [keys0Of, wt_keyTol]
  norm_num [wA, wB, keyOfPt, create_key, truncQ, Dec.val, pow10]

theorem wt_keys3 :
    keys3Of [wA, wB] = [[200000000000, 100000000000], [400000000000, 100000000000]] := by
  rw [keys3Of, wt_keyTol]
  norm_num [wA, wB, keyOfPt, create_key, truncQ, Dec.val, pow10]

/-- Witness for C6 (amended): the two unlinked curves `wA`, `wB` give the
same chain pairs in either order. -/
theorem stitcher_perm_no_links_witness :
    chainPairs [wA, wB] = chainPairs [wB, wA] := by
  apply stitcher_perm_no_links [wA, wB] [wB, wA] (List.Perm.swap wB wA [])
  rw [wt_keys3, wt_keys0]
  decide
